import Mathlib

set_option maxRecDepth 8000

/-!
Shallow embedding of `update_releases.py`, a release-tarball updater that
lists tags from a paginated API, downloads and safely extracts missing
release archives, and regenerates a static `index.html`.

Absolute filesystem paths are modelled as lists of segments below the root;
filesystem and network effects are modelled by explicit state passing and
oracle functions, and archives by the list of their member names.  The string
primitives used by the script (`split`, `strip`, `startswith`, slicing,
comparison) are given structurally recursive definitions over the character
list of a `String`, so that every operation evaluates by kernel reduction.
-/

namespace Backscape

/-! ### String primitives -/

/-- `pat` is an initial run of `l` (character-list form of `str.startswith`). -/
def chInit : List Char → List Char → Bool
  | [], _ => true
  | _ :: _, [] => false
  | p :: ps, c :: cs => p == c && chInit ps cs

/-- `s.startswith(pat)`. -/
def strStarts (s pat : String) : Bool := chInit pat.data s.data

/-- `s.endswith(pat)`. -/
def strEnds (s pat : String) : Bool := chInit pat.data.reverse s.data.reverse

/-- `split` on a single-character separator. -/
def chSplit (sep : Char) : List Char → List (List Char)
  | [] => [[]]
  | c :: cs =>
      match chSplit sep cs with
      | [] => [[]]
      | h :: t => if c == sep then [] :: h :: t else (c :: h) :: t

/-- `s.split(sep)` for a one-character separator `sep`. -/
def strSplit (s : String) (sep : Char) : List String :=
  (chSplit sep s.data).map String.mk

/-- `s.strip()`. -/
def strTrim (s : String) : String :=
  String.mk (((s.data.dropWhile Char.isWhitespace).reverse.dropWhile Char.isWhitespace).reverse)

/-- `s[n:]`. -/
def strDrop (s : String) (n : Nat) : String := String.mk (s.data.drop n)

/-- `s[:-n]` (for `n ≤ len(s)`). -/
def strDropRight (s : String) (n : Nat) : String :=
  String.mk (s.data.take (s.data.length - n))

/-- Lexicographic code-point comparison of character lists: Python's `<` on
strings. -/
def chLt : List Char → List Char → Bool
  | [], [] => false
  | [], _ :: _ => true
  | _ :: _, [] => false
  | a :: as', b :: bs => a < b || (a == b && chLt as' bs)

/-- `a >= b` on strings, the comparison used by `sorted(..., reverse=True)`. -/
def strGeb (a b : String) : Bool := !chLt a.data b.data

/-- `a <= b` on strings, the comparison used by ascending `sorted`. -/
def strLeb (a b : String) : Bool := !chLt b.data a.data

/-- The descending order on strings, as a relation. -/
def descOrder (a b : String) : Prop := strGeb a b = true

/-- The ascending order on strings, as a relation. -/
def ascOrder (a b : String) : Prop := strLeb a b = true

instance : DecidableRel descOrder := fun a b =>
  inferInstanceAs (Decidable (strGeb a b = true))

instance : DecidableRel ascOrder := fun a b =>
  inferInstanceAs (Decidable (strLeb a b = true))

/-- Number of positions of `l` at which the pattern `pat` occurs. -/
def chCount (pat : List Char) : List Char → Nat
  | [] => 0
  | c :: cs => (if chInit pat (c :: cs) then 1 else 0) + chCount pat cs

/-- Number of occurrences of the pattern `pat` in `s`. -/
def countOccs (s pat : String) : Nat := chCount pat.data s.data

/-! ### Path model (`pathlib` semantics) -/

/-- Segments of a path string, as `pathlib` parses it: split on `/`, dropping
empty segments and single dots (`PurePosixPath` normalises both away) and
keeping `..`. -/
def pathSegs (s : String) : List String :=
  (strSplit s '/').filter (fun seg => !(seg == "") && !(seg == "."))

/-- `dest / name` for an absolute `dest` (its segments below the root) and a
member-name string: `pathlib` joining discards `dest` when `name` is absolute. -/
def joinPath (dest : List String) (name : String) : List String :=
  if strStarts name "/" then pathSegs name else dest ++ pathSegs name

/-- Lexical `Path.resolve()`: `..` removes the previous segment (at the root it
is dropped), any other segment is kept. -/
def normSegs (segs : List String) : List String :=
  segs.foldl (fun acc seg => if seg == ".." then acc.dropLast else acc ++ [seg]) []

/-- `str(path)` for an absolute path given by its segments. -/
def pathStr (segs : List String) : String :=
  "/" ++ String.intercalate "/" segs

/-- Segment-wise containment: the path `inner` lies at or below the directory
`outer`. -/
def segsUnder (outer inner : List String) : Bool :=
  match outer, inner with
  | [], _ => true
  | _ :: _, [] => false
  | o :: os, j :: js => o == j && segsUnder os js

/-! ### `safe_extract_all` -/

/-- The per-member validation check of `safe_extract_all`:
`str((dest_path / member.name).resolve()).startswith(str(dest_path))`
with `dest_path = dest.resolve()`.  Note this is a *string*-prefix test. -/
def memberSafe (dest : List String) (name : String) : Bool :=
  strStarts (pathStr (normSegs (joinPath (normSegs dest) name))) (pathStr (normSegs dest))

/-- Errors that can arise while extracting a release archive. -/
inductive ExtractErr where
  /-- `RuntimeError("Unsafe path in archive: ...")` from `safe_extract_all`. -/
  | unsafePath (name : String)
  /-- An error raised by the standard library `data` extraction filter. -/
  | filterError (name : String)
  /-- `RuntimeError("Unexpected archive structure ...")` from `extract_release`. -/
  | structureError (roots : List String)
  /-- The `IndexError` raised by `Path(m.name).parts[0]` when a non-empty
  member name has no parts at all (a name such as `"."`). -/
  | indexError
  /-- `RuntimeError("Extraction root missing ...")` from `extract_release`. -/
  | rootMissing
  deriving DecidableEq

/-- The `tarfile` `data` extraction filter (standard library, not this
repository): a member is admissible when its name is not absolute and its
target stays at or below the destination directory. -/
def dataFilterOk (dest : List String) (name : String) : Bool :=
  !(strStarts name "/") && segsUnder (normSegs dest) (normSegs (joinPath (normSegs dest) name))

/-- `tar.extractall(dest, filter="data")`: members are written in order, each
target path recorded; the first member the `data` filter rejects stops
extraction with an error, leaving the earlier members' files in place. -/
def extractAllFiltered (dest : List String) : List String → List (List String) × Option ExtractErr
  | [] => ([], none)
  | m :: ms =>
      if dataFilterOk dest m then
        let r := extractAllFiltered dest ms
        (normSegs (joinPath (normSegs dest) m) :: r.1, r.2)
      else ([], some (.filterError m))

/-- `safe_extract_all`: check every member with `memberSafe` before extracting
anything; if some member fails, raise the unsafe-path error with nothing
written, otherwise run `extractall` with the `data` filter.  Returns the list
of written target paths together with the error, if any. -/
def safeExtractAll (dest : List String) (members : List String) :
    List (List String) × Option ExtractErr :=
  match members.find? (fun m => !(memberSafe dest m)) with
  | some m => ([], some (.unsafePath m))
  | none => extractAllFiltered dest members

/-! ### `extract_release` -/

/-- First `pathlib` part of a member name (`Path(m.name).parts[0]`): `/` for an
absolute name, otherwise the first remaining segment; `none` when there is no
part at all (a name such as `"."`, where `parts` is empty and the source
raises `IndexError` — the `none` is that error, propagated by `rootNames`). -/
def firstPart (name : String) : Option String :=
  if strStarts name "/" then some "/" else (pathSegs name).head?

/-- `Path(m.name).parts[0]` for each member in order, `none` as soon as one
member has no part: the `IndexError` the set comprehension raises there. -/
def firstParts : List String → Option (List String)
  | [] => some []
  | m :: ms =>
      match firstPart m, firstParts ms with
      | some p, some ps => some (p :: ps)
      | _, _ => none

/-- `sorted({Path(m.name).parts[0] for m in tar.getmembers() if m.name})`:
`none` models the `IndexError` raised when some non-empty member name has no
parts; otherwise the ascending sorted set of first parts. -/
def rootNames (members : List String) : Option (List String) :=
  match firstParts (members.filter (fun m => !(m == ""))) with
  | none => none
  | some parts => some (List.insertionSort ascOrder parts.dedup)

/-- `extracted_root.exists()` after extraction: some written path lies at or
below `dest/root`. -/
def rootWritten (dest : List String) (root : String) (written : List (List String)) : Bool :=
  written.any (fun p => segsUnder (normSegs dest ++ [root]) p)

/-- `extract_release`: safely extract into the scratch directory `dest`;
compute the top-level roots (raising `IndexError` on a non-empty member name
with no parts), require exactly one root, require that root to exist, move it
to `Path(tag)` — the path `cwd / tag` below the process working directory —
and return that path. -/
def extractRelease (cwd : List String) (tag : String) (dest : List String)
    (members : List String) : Except ExtractErr (List String) :=
  match safeExtractAll dest members with
  | (_, some e) => .error e
  | (written, none) =>
      match rootNames members with
      | none => .error .indexError
      | some [r] =>
          if rootWritten dest r written then .ok (cwd ++ [tag]) else .error .rootMissing
      | some roots => .error (.structureError roots)

/-! ### `parse_link_header` and `fetch_all_tags` -/

/-- `parse_link_header`: split the header on commas; for each part split on
semicolons, keep a `<url>` first section and a `rel="name"` second section,
and record the pair.  The record order is the assignment order of the Python
dict. -/
def parseLinkHeader (header : String) : List (String × String) :=
  (strSplit header ',').foldl
    (fun rels part =>
      match strSplit (strTrim part) ';' with
      | s0 :: s1 :: _ =>
          let urlPart := strTrim s0
          let relPart := strTrim s1
          if strStarts urlPart "<" && strEnds urlPart ">" then
            let url := strDropRight (strDrop urlPart 1) 1
            if strStarts relPart "rel=\"" && strEnds relPart "\"" then
              rels ++ [(strDropRight (strDrop relPart 5) 1, url)]
            else rels
          else rels
      | _ => rels)
    []

/-- `dict.get`: the value of the last assignment to the key, if any. -/
def relsGet (rels : List (String × String)) (k : String) : Option String :=
  (rels.reverse.find? (fun p => p.1 == k)).map (fun p => p.2)

/-- One HTTP response of the tag-listing endpoint: the tag names of its JSON
body and its `Link` header, when present. -/
structure HttpPage where
  tags : List String
  linkHeader : Option String
  deriving DecidableEq

/-- The `next` URL of a page: `parse_link_header(resp.headers["Link"]).get("next")`,
`none` when the header is absent. -/
def pageNext (p : HttpPage) : Option String :=
  match p.linkHeader with
  | none => none
  | some h => relsGet (parseLinkHeader h) "next"

/-- `fetch_all_tags` over the chain of successive responses: the loop always
issues the first request (an empty chain models its failure), accumulates each
page's tags, and continues to the next response exactly when the current page
carries a `next` relation; a missing continuation response models a failed
request and yields `none`. -/
def fetchAllTags : List HttpPage → Option (List String)
  | [] => none
  | p :: rest =>
      match pageNext p with
      | none => some p.tags
      | some _ => (fetchAllTags rest).map (fun ts => p.tags ++ ts)

/-! ### `render_index` -/

/-- One list item of the index:
`f'    <li><a href="{name}/docs/">{name}</a></li>'`. -/
def itemLine (name : String) : String :=
  "    <li><a href=\"" ++ name ++ "/docs/\">" ++ name ++ "</a></li>"

/-- `sorted(release_dirs, key=lambda p: p.name, reverse=True)`, over the
directory names. -/
def sortedNames (names : List String) : List String :=
  List.insertionSort descOrder names

/-- The `items` list built by `render_index`, in emission order. -/
def indexItems (names : List String) : List String :=
  (sortedNames names).map itemLine

/-- The surrounding HTML document of `render_index`, around a given body. -/
def htmlDoc (body : String) : String :=
  String.intercalate "\n"
    [ "<!doctype html>"
    , "<html lang=\"en\">"
    , "<head>"
    , "  <meta charset=\"utf-8\" />"
    , "  <title>blockscape releases</title>"
    , "  <meta name=\"viewport\" content=\"width=device-width, initial-scale=1\" />"
    , "  <style>"
    , "    body \x7b font-family: sans-serif; max-width: 720px; margin: 40px auto; padding: 0 16px; \x7d"
    , "    h1 \x7b margin-bottom: 8px; \x7d"
    , "    ul \x7b line-height: 1.6; \x7d"
    , "  </style>"
    , "</head>"
    , "<body>"
    , "  <h1>blockscape releases</h1>"
    , "  <ul>"
    , body
    , "  </ul>"
    , "</body>"
    , "</html>"
    ]

/-- `render_index` over the names of the given release directories:
`body = "\n".join(items) or "    <li>No releases downloaded yet.</li>"`
wrapped in the fixed document. -/
def renderIndex (names : List String) : String :=
  let body0 := String.intercalate "\n" (indexItems names)
  htmlDoc (if body0 == "" then "    <li>No releases downloaded yet.</li>" else body0)

/-! ### `ensure_releases` -/

/-- Filesystem and bookkeeping state threaded through `ensure_releases`:
the working directory's release directories (name and abstract content),
the live downloaded temporary files (by tag), and the `downloaded` list of
tags extracted in this run. -/
structure RunSt where
  dirs : List (String × Nat)
  temps : List String
  downloaded : List String
  deriving DecidableEq

/-- One iteration of the `ensure_releases` loop for a single tag, with
`dl`/`ex` the download and extraction oracles: an existing directory is
skipped; otherwise `download_tarball` creates a temporary file (it removes it
itself when the download fails), and the `try/finally` deletes that file both
when `extract_release` succeeds and when it raises, the error propagating. -/
def processTag (dl : String → Except String Nat) (ex : String → Nat → Except String Nat)
    (st : RunSt) (tag : String) : RunSt × Option String :=
  if (List.lookup tag st.dirs).isSome then (st, none)
  else
    match dl tag with
    | .error e => (st, some e)
    | .ok tb =>
        let st1 : RunSt := { st with temps := st.temps ++ [tag] }
        match ex tag tb with
        | .error e =>
            ({ st1 with temps := st1.temps.filter (fun t => !(t == tag)) }, some e)
        | .ok c =>
            ({ st1 with
                dirs := st1.dirs ++ [(tag, c)]
                downloaded := st1.downloaded ++ [tag]
                temps := st1.temps.filter (fun t => !(t == tag)) }, none)

/-- `ensure_releases`: process the tags in order, stopping at the first
propagated error. -/
def ensureReleases (dl : String → Except String Nat) (ex : String → Nat → Except String Nat) :
    List String → RunSt → RunSt × Option String
  | [], st => (st, none)
  | tag :: rest, st =>
      match processTag dl ex st tag with
      | (st1, none) => ensureReleases dl ex rest st1
      | (st1, some e) => (st1, some e)

/-! ### `main` -/

/-- The world visible to `main`: the release directories of the working
directory and the contents of `index.html`, when the file exists. -/
structure World where
  dirs : List (String × Nat)
  index : Option String
  deriving DecidableEq

/-- `main`: a failed tag listing prints a diagnostic and exits with status 1;
an empty tag list exits with status 0 with no further action; otherwise the
missing releases are ensured (an uncaught per-tag error aborts the run with a
nonzero status before the index step), the release set is resolved from the
directories named by known tags together with the newly downloaded ones, and
`index.html` is rewritten. -/
def mainRun (listing : Except String (List String)) (dl : String → Except String Nat)
    (ex : String → Nat → Except String Nat) (w : World) : Nat × World :=
  match listing with
  | .error _ => (1, w)
  | .ok tags =>
      if tags.isEmpty then (0, w)
      else
        match ensureReleases dl ex tags ⟨w.dirs, [], []⟩ with
        | (st, some _) => (1, { w with dirs := st.dirs })
        | (st, none) =>
            let existing := (st.dirs.map Prod.fst).filter (fun n => tags.contains n)
            let allReleases := (existing ++ st.downloaded).dedup
            (0, { dirs := st.dirs, index := some (renderIndex allReleases) })

/-! ### Order properties of the string comparison -/

theorem chLt_iff_lt (l₁ l₂ : List Char) : chLt l₁ l₂ = true ↔ List.lt l₁ l₂ := by
  induction l₁ generalizing l₂ with
  | nil =>
      cases l₂ with
      | nil =>
          simp only [chLt, Bool.false_eq_true, false_iff]
          intro h; cases h
      | cons b bs => simp only [chLt, true_iff]; exact .nil b bs
  | cons a as ih =>
      cases l₂ with
      | nil =>
          simp only [chLt, Bool.false_eq_true, false_iff]
          intro h; cases h
      | cons b bs =>
          simp only [chLt, Bool.or_eq_true, Bool.and_eq_true, decide_eq_true_eq, beq_iff_eq]
          constructor
          · rintro (h | ⟨rfl, h⟩)
            · exact .head _ _ h
            · exact .tail (lt_irrefl a) (lt_irrefl a) ((ih bs).mp h)
          · intro h
            cases h with
            | head _ _ h => exact Or.inl h
            | tail h1 h2 h3 =>
                exact Or.inr ⟨le_antisymm (not_lt.mp h2) (not_lt.mp h1), (ih bs).mpr h3⟩

theorem descOrder_iff (a b : String) : descOrder a b ↔ b ≤ a := by
  unfold descOrder strGeb
  rw [Bool.not_eq_true', ← Bool.not_eq_true, chLt_iff_lt]
  constructor
  · intro hn
    refine not_lt.mp (fun hab => hn ?_)
    exact (List.lt_iff_lex_lt _ _).mpr (String.lt_iff_toList_lt.mp hab)
  · intro hle hlt
    exact not_lt.mpr hle (String.lt_iff_toList_lt.mpr ((List.lt_iff_lex_lt _ _).mp hlt))

instance : IsTrans String descOrder :=
  ⟨fun _ _ _ h1 h2 =>
    (descOrder_iff _ _).mpr (le_trans ((descOrder_iff _ _).mp h2) ((descOrder_iff _ _).mp h1))⟩

instance : IsTotal String descOrder :=
  ⟨fun a b => by
    rcases le_total a b with h | h
    · exact Or.inr ((descOrder_iff _ _).mpr h)
    · exact Or.inl ((descOrder_iff _ _).mpr h)⟩

instance : IsAntisymm String descOrder :=
  ⟨fun a b h1 h2 => le_antisymm ((descOrder_iff _ _).mp h2) ((descOrder_iff _ _).mp h1)⟩

/-! ### Theorems -/

/-- C1: the claim requires that whenever an entry's resolved path
(`dest / name`, resolved) falls outside the destination, extraction fail with
the unsafe-archive error before any entry's bytes are written.  The source's
validation is a bare string-prefix test, so for destination
`/tmp/blockscape-ab12` the entry `../blockscape-ab12x/evil.txt` resolves to
`/tmp/blockscape-ab12x/evil.txt` — outside the destination — yet passes
validation; extraction then begins, writes the earlier entry
`good/a.txt`, and fails only at the standard-library `data` filter, not with
the unsafe-archive error and not before bytes are written. -/
theorem c1_traversal_check_gap :
    memberSafe ["tmp", "blockscape-ab12"] "../blockscape-ab12x/evil.txt" = true ∧
    segsUnder (normSegs ["tmp", "blockscape-ab12"])
      (normSegs (joinPath (normSegs ["tmp", "blockscape-ab12"])
        "../blockscape-ab12x/evil.txt")) = false ∧
    safeExtractAll ["tmp", "blockscape-ab12"]
        ["good/a.txt", "../blockscape-ab12x/evil.txt"] =
      ([["tmp", "blockscape-ab12", "good", "a.txt"]],
        some (.filterError "../blockscape-ab12x/evil.txt")) := by
  refine ⟨by decide, by decide, by decide⟩

theorem intercalate_go_length (l : List String) :
    ∀ (acc s : String), acc.length ≤ (String.intercalate.go acc s l).length := by
  induction l with
  | nil => intro acc s; exact Nat.le_refl _
  | cons a as ih =>
      intro acc s
      have h1 : acc.length ≤ (acc ++ s ++ a).length := by
        rw [String.length_append, String.length_append]
        omega
      exact Nat.le_trans h1 (ih (acc ++ s ++ a) s)

theorem one_le_itemLine_length (n : String) : 1 ≤ (itemLine n).length := by
  unfold itemLine
  rw [String.length_append]
  have h : 1 ≤ ("</a></li>" : String).length := by decide
  omega

theorem body_ne_empty (x : String) (xs : List String) :
    (String.intercalate "\n" (itemLine x :: xs) == "") = false := by
  have h1 : String.intercalate "\n" (itemLine x :: xs) =
      String.intercalate.go (itemLine x) "\n" xs := rfl
  have h2 : 1 ≤ (String.intercalate "\n" (itemLine x :: xs)).length := by
    rw [h1]
    exact Nat.le_trans (one_le_itemLine_length x) (intercalate_go_length xs (itemLine x) "\n")
  rw [beq_eq_false_iff_ne]
  intro hc
  rw [hc] at h2
  simp at h2

/-- C6: for a non-empty release set, `render_index` emits exactly one list item
per release — the items are the `itemLine`s, each carrying the
`<name>/docs/` link, of a permutation of the names sorted in descending
lexicographic order — and for `["v2.0.0", "v1.0.0", "v1.1.0"]` the order is
`v2.0.0, v1.1.0, v1.0.0`. -/
theorem c6_index_items_sorted_desc (names : List String) (hne : names ≠ []) :
    (sortedNames names).Perm names ∧
    List.Sorted descOrder (sortedNames names) ∧
    indexItems names = (sortedNames names).map itemLine ∧
    (∀ n, itemLine n = "    <li><a href=\"" ++ n ++ "/docs/\">" ++ n ++ "</a></li>") ∧
    renderIndex names = htmlDoc (String.intercalate "\n" (indexItems names)) ∧
    sortedNames ["v2.0.0", "v1.0.0", "v1.1.0"] = ["v2.0.0", "v1.1.0", "v1.0.0"] := by
  refine ⟨List.perm_insertionSort descOrder names,
    List.sorted_insertionSort descOrder names, rfl, fun n => rfl, ?_, by decide⟩
  have hsn : sortedNames names ≠ [] := by
    intro hc
    apply hne
    apply List.length_eq_zero.mp
    have h0 : (sortedNames names).length = 0 := by rw [hc]; rfl
    rw [show (sortedNames names).length = names.length from
      List.length_insertionSort descOrder names] at h0
    exact h0
  rcases hx : sortedNames names with _ | ⟨x, xs⟩
  · exact absurd hx hsn
  · unfold renderIndex
    have hitems : indexItems names = itemLine x :: xs.map itemLine := by
      unfold indexItems
      rw [hx]
      rfl
    rw [hitems]
    simp only [body_ne_empty x (xs.map itemLine), Bool.false_eq_true, if_false]

/-- C6 witness at the spec's example input. -/
theorem c6_index_items_sorted_desc_witness :
    (sortedNames ["v2.0.0", "v1.0.0", "v1.1.0"]).Perm ["v2.0.0", "v1.0.0", "v1.1.0"] ∧
    List.Sorted descOrder (sortedNames ["v2.0.0", "v1.0.0", "v1.1.0"]) ∧
    sortedNames ["v2.0.0", "v1.0.0", "v1.1.0"] = ["v2.0.0", "v1.1.0", "v1.0.0"] :=
  ⟨(c6_index_items_sorted_desc ["v2.0.0", "v1.0.0", "v1.1.0"] (by decide)).1,
   (c6_index_items_sorted_desc ["v2.0.0", "v1.0.0", "v1.1.0"] (by decide)).2.1,
   (c6_index_items_sorted_desc ["v2.0.0", "v1.0.0", "v1.1.0"] (by decide)).2.2.2.2.2⟩

theorem extractAllFiltered_snd_none (dest : List String) (members : List String)
    (h : members.all (fun m => dataFilterOk dest m) = true) :
    (extractAllFiltered dest members).2 = none := by
  induction members with
  | nil => rfl
  | cons m ms ih =>
      rw [List.all_cons, Bool.and_eq_true] at h
      simp [extractAllFiltered, h.1, ih h.2]

theorem safeExtractAll_of_all_safe (dest : List String) (members : List String)
    (h : members.all (fun m => memberSafe dest m) = true) :
    safeExtractAll dest members = extractAllFiltered dest members := by
  unfold safeExtractAll
  have hf : members.find? (fun m => !(memberSafe dest m)) = none := by
    rw [List.find?_eq_none]
    intro x hx
    rw [List.all_eq_true] at h
    simp [h x hx]
  rw [hf]

/-- C2 counterexample: the claim fails as stated on an archive containing an
entry named `"."` (as GNU-style tars often do): every entry passes validation
and the extraction filter, the set of distinct top-level segments of the
entries that have one is `{a, b}` — not exactly one element — yet
`extract_release` does not fail with the structure error: it raises
`IndexError` at `Path(".").parts[0]` before its structure check. -/
theorem c2_dot_entry_counterexample :
    extractRelease ["site"] "v1" ["tmp", "scratch"] ["a/x.txt", "b/y.txt", "."] =
      .error .indexError ∧
    ∀ roots, extractRelease ["site"] "v1" ["tmp", "scratch"] ["a/x.txt", "b/y.txt", "."] ≠
      .error (.structureError roots) := by
  have h1 : extractRelease ["site"] "v1" ["tmp", "scratch"] ["a/x.txt", "b/y.txt", "."] =
      .error .indexError := by rfl
  refine ⟨h1, ?_⟩
  intro roots h
  rw [h1] at h
  exact ExtractErr.noConfusion (Except.error.inj h)

/-- C2 (amended): when every entry passes both the validation check and the
extraction filter (so the extraction phase raises nothing) and the top-level
computation completes — every non-empty entry name has at least one path
component; a component-less name such as `"."` instead crashes the run with
`IndexError` before the structure check — `extract_release` fails with the
structure error exactly when the set of distinct top-level segments of the
(non-empty-named) entries does not have exactly one element; this covers an
archive with two distinct top-level directories and the empty archive. -/
theorem c2_structure_error (cwd : List String) (tag : String) (dest : List String)
    (members : List String) (roots : List String)
    (hsafe : members.all (fun m => memberSafe dest m) = true)
    (hfilter : members.all (fun m => dataFilterOk dest m) = true)
    (hroots : rootNames members = some roots)
    (hlen : roots.length ≠ 1) :
    extractRelease cwd tag dest members = .error (.structureError roots) := by
  unfold extractRelease
  rw [safeExtractAll_of_all_safe dest members hsafe]
  have hsnd := extractAllFiltered_snd_none dest members hfilter
  rcases hEF : extractAllFiltered dest members with ⟨written, err⟩
  rw [hEF] at hsnd
  simp only at hsnd
  subst hsnd
  rw [hroots]
  rcases roots with _ | ⟨r, _ | ⟨r2, rs⟩⟩
  · simp
  · exact absurd rfl hlen
  · simp

/-- C2 witness: an archive with the two distinct top-level directories `a` and
`b` is rejected with the structure error. -/
theorem c2_structure_error_witness :
    extractRelease ["site"] "v1" ["tmp", "scratch"] ["a/f.txt", "b/g.txt"] =
      .error (.structureError ["a", "b"]) :=
  c2_structure_error ["site"] "v1" ["tmp", "scratch"] ["a/f.txt", "b/g.txt"] ["a", "b"]
    (by decide) (by decide) (by decide) (by decide)

/-- C3: when the tag listing fails, `main` exits with status 1 and the world —
in particular any pre-existing `index.html` — is left unmodified. -/
theorem c3_listing_failure_preserves_index (e : String)
    (dl : String → Except String Nat) (ex : String → Nat → Except String Nat) (w : World) :
    mainRun (.error e) dl ex w = (1, w) ∧ (mainRun (.error e) dl ex w).2.index = w.index := by
  constructor
  · rfl
  · rfl

/-- C3 witness at a concrete failed listing and a pre-existing index. -/
theorem c3_listing_failure_preserves_index_witness :
    mainRun (.error "HTTP 403: rate limited") (fun _ => .ok 0) (fun _ _ => .ok 0)
        ⟨[("v1", 1)], some "old index"⟩ =
      (1, ⟨[("v1", 1)], some "old index"⟩) ∧
    (mainRun (.error "HTTP 403: rate limited") (fun _ => .ok 0) (fun _ _ => .ok 0)
        ⟨[("v1", 1)], some "old index"⟩).2.index = some "old index" :=
  c3_listing_failure_preserves_index "HTTP 403: rate limited" (fun _ => .ok 0)
    (fun _ _ => .ok 0) ⟨[("v1", 1)], some "old index"⟩

/-- C8 counterexample: a successful extraction moves the root to a directory
that is a *child* of the run's working directory, not its sibling: the final
location's parent is the working directory itself, which differs from the
working directory's own parent. -/
theorem c8_sibling_counterexample :
    extractRelease ["home", "runner", "site"] "v1.0.0" ["tmp", "scratch"]
        ["blockscape-1.0.0/docs/index.html"] =
      .ok ["home", "runner", "site", "v1.0.0"] ∧
    ¬ ((["home", "runner", "site", "v1.0.0"] : List String).dropLast =
        (["home", "runner", "site"] : List String).dropLast) := by
  constructor
  · rfl
  · decide

/-- C8 (amended): on successful extraction the single top-level directory is
moved to a final location named exactly after the tag *directly inside* the
run's working directory (`Path(tag)`, a child of the working directory), and
that path is what `extract_release` returns. -/
theorem c8_extract_returns_child_of_cwd (cwd : List String) (tag : String)
    (dest : List String) (members : List String) (p : List String)
    (h : extractRelease cwd tag dest members = .ok p) :
    p = cwd ++ [tag] ∧ p.dropLast = cwd ∧ p.getLast? = some tag := by
  have hp : p = cwd ++ [tag] := by
    unfold extractRelease at h
    rcases hS : safeExtractAll dest members with ⟨written, err⟩
    rw [hS] at h
    cases err with
    | some e => simp at h
    | none =>
        rcases hR : rootNames members with _ | ⟨_ | ⟨r, _ | ⟨r2, rs⟩⟩⟩
        · rw [hR] at h; simp at h
        · rw [hR] at h; simp at h
        · rw [hR] at h
          by_cases hW : rootWritten dest r written = true
          · simp [hW] at h
            exact h.symm
          · simp [hW] at h
        · rw [hR] at h; simp at h
  subst hp
  exact ⟨rfl, List.dropLast_concat .., List.getLast?_concat ..⟩

/-- C8 witness: a concrete successful extraction returning the child path. -/
theorem c8_extract_returns_child_of_cwd_witness :
    (["home", "runner", "site", "v1.0.0"] : List String) =
        ["home", "runner", "site"] ++ ["v1.0.0"] ∧
    (["home", "runner", "site", "v1.0.0"] : List String).dropLast =
        ["home", "runner", "site"] ∧
    (["home", "runner", "site", "v1.0.0"] : List String).getLast? = some "v1.0.0" :=
  c8_extract_returns_child_of_cwd ["home", "runner", "site"] "v1.0.0" ["tmp", "scratch"]
    ["blockscape-1.0.0/docs/index.html"] ["home", "runner", "site", "v1.0.0"] (by rfl)

theorem fetchAllTags_cons_some (p : HttpPage) (rest : List HttpPage) (u : String)
    (hu : pageNext p = some u) :
    fetchAllTags (p :: rest) = (fetchAllTags rest).map (fun ts => p.tags ++ ts) := by
  simp [fetchAllTags, hu]

/-- C5: over a response chain in which every page but the last carries a
`next` relation in its `Link` header and the last does not, `fetch_all_tags`
returns exactly the concatenation of all pages' tag names in page order,
requesting a further page exactly while a `next` relation is present. -/
theorem c5_fetch_all_tags_concat (pages : List HttpPage) :
    pages ≠ [] →
    pages.dropLast.all (fun p => (pageNext p).isSome) = true →
    pages.getLast?.all (fun p => (pageNext p).isNone) = true →
    fetchAllTags pages = some (pages.map HttpPage.tags).join := by
  induction pages with
  | nil => intro h; exact absurd rfl h
  | cons p rest ih =>
      intro _ hmid hlast
      cases rest with
      | nil =>
          have h1 : (pageNext p).isNone = true := by
            simpa [List.getLast?, Option.all] using hlast
          have h2 : pageNext p = none := Option.isNone_iff_eq_none.mp h1
          simp [fetchAllTags, h2]
      | cons q rest' =>
          have hp : (pageNext p).isSome = true := by
            have hmem : p ∈ (p :: q :: rest').dropLast := by
              rw [List.dropLast_cons₂]
              exact List.mem_cons_self p _
            exact List.all_eq_true.mp hmid p hmem
          obtain ⟨u, hu⟩ := Option.isSome_iff_exists.mp hp
          have hmid' : (q :: rest').dropLast.all (fun x => (pageNext x).isSome) = true := by
            rw [List.all_eq_true]
            intro x hx
            refine List.all_eq_true.mp hmid x ?_
            rw [List.dropLast_cons₂]
            exact List.mem_cons_of_mem p hx
          have hlast' : (q :: rest').getLast?.all (fun x => (pageNext x).isNone) = true := by
            rwa [List.getLast?_cons_cons] at hlast
          have hrec := ih (by simp) hmid' hlast'
          rw [fetchAllTags_cons_some p (q :: rest') u hu, hrec]
          simp

/-- C5 witness on a two-page chain with a realistic `Link` header. -/
theorem c5_fetch_all_tags_concat_witness :
    fetchAllTags
        [⟨["v2.0.0", "v1.1.0"], some "<https://api.example/tags?page=2>; rel=\"next\""⟩,
          ⟨["v1.0.0"], none⟩] =
      some (([⟨["v2.0.0", "v1.1.0"], some "<https://api.example/tags?page=2>; rel=\"next\""⟩,
          (⟨["v1.0.0"], none⟩ : HttpPage)].map HttpPage.tags).join) :=
  c5_fetch_all_tags_concat
    [⟨["v2.0.0", "v1.1.0"], some "<https://api.example/tags?page=2>; rel=\"next\""⟩,
      ⟨["v1.0.0"], none⟩]
    (by decide) (by decide) (by decide)

/-- C9: `render_index` depends only on the multiset of directory names:
permuting the input yields the character-identical document. -/
theorem c9_render_perm_invariant (l₁ l₂ : List String) (h : l₁.Perm l₂) :
    renderIndex l₁ = renderIndex l₂ := by
  have hs : sortedNames l₁ = sortedNames l₂ :=
    List.eq_of_perm_of_sorted
      (((List.perm_insertionSort descOrder l₁).trans h).trans
        (List.perm_insertionSort descOrder l₂).symm)
      (List.sorted_insertionSort descOrder l₁)
      (List.sorted_insertionSort descOrder l₂)
  unfold renderIndex indexItems
  rw [hs]

/-- C9 witness at a concrete permutation. -/
theorem c9_render_perm_invariant_witness :
    renderIndex ["v1.0.0", "v2.0.0", "v1.1.0"] = renderIndex ["v2.0.0", "v1.1.0", "v1.0.0"] :=
  c9_render_perm_invariant ["v1.0.0", "v2.0.0", "v1.1.0"] ["v2.0.0", "v1.1.0", "v1.0.0"]
    (by decide)

/-- C7: on an empty release set, `render_index` emits exactly one placeholder
list item and no `<a>` element, inside a complete HTML document. -/
theorem c7_empty_index_placeholder :
    countOccs (renderIndex []) "<li>" = 1 ∧
    countOccs (renderIndex []) "<a" = 0 ∧
    strStarts (renderIndex []) "<!doctype html>" = true ∧
    strEnds (renderIndex []) "</html>" = true := by
  refine ⟨by decide, by decide, by decide, by decide⟩

theorem lookup_append_left (k : String) (l l' : List (String × Nat)) (v : Nat)
    (h : List.lookup k l = some v) : List.lookup k (l ++ l') = some v := by
  induction l with
  | nil => simp [List.lookup] at h
  | cons a as ih =>
      rcases a with ⟨k', v'⟩
      rw [List.cons_append, List.lookup]
      rw [List.lookup] at h
      cases hk : (k == k') with
      | true => rw [hk] at h; exact h
      | false => rw [hk] at h; exact ih h

theorem lookup_append_of_none (k : String) (l l' : List (String × Nat))
    (h : List.lookup k l = none) : List.lookup k (l ++ l') = List.lookup k l' := by
  induction l with
  | nil => rfl
  | cons a as ih =>
      rcases a with ⟨k', v'⟩
      rw [List.cons_append, List.lookup]
      rw [List.lookup] at h
      cases hk : (k == k') with
      | true => rw [hk] at h; exact absurd h (by simp)
      | false => rw [hk] at h; exact ih h

theorem ensureReleases_nil (dl : String → Except String Nat)
    (ex : String → Nat → Except String Nat) (st : RunSt) :
    ensureReleases dl ex [] st = (st, none) := rfl

theorem ensureReleases_cons (dl : String → Except String Nat)
    (ex : String → Nat → Except String Nat) (tag : String) (rest : List String) (st : RunSt) :
    ensureReleases dl ex (tag :: rest) st =
      match processTag dl ex st tag with
      | (st1, none) => ensureReleases dl ex rest st1
      | (st1, some e) => (st1, some e) := rfl

theorem processTag_skip (dl : String → Except String Nat)
    (ex : String → Nat → Except String Nat) (st : RunSt) (tag : String)
    (h : (List.lookup tag st.dirs).isSome = true) :
    processTag dl ex st tag = (st, none) := by
  unfold processTag
  rw [if_pos h]

theorem processTag_dl_error (dl : String → Except String Nat)
    (ex : String → Nat → Except String Nat) (st : RunSt) (tag : String) (e : String)
    (h1 : (List.lookup tag st.dirs).isSome = false)
    (h2 : dl tag = .error e) :
    processTag dl ex st tag = (st, some e) := by
  simp [processTag, h1, h2]

theorem processTag_ex_error (dl : String → Except String Nat)
    (ex : String → Nat → Except String Nat) (st : RunSt) (tag : String) (tb : Nat) (e : String)
    (h1 : (List.lookup tag st.dirs).isSome = false)
    (h2 : dl tag = .ok tb)
    (h3 : ex tag tb = .error e) :
    processTag dl ex st tag =
      (⟨st.dirs, (st.temps ++ [tag]).filter (fun t => !(t == tag)), st.downloaded⟩, some e) := by
  simp [processTag, h1, h2, h3]

theorem processTag_extract_ok (dl : String → Except String Nat)
    (ex : String → Nat → Except String Nat) (st : RunSt) (tag : String) (tb : Nat) (c : Nat)
    (h1 : (List.lookup tag st.dirs).isSome = false)
    (h2 : dl tag = .ok tb)
    (h3 : ex tag tb = .ok c) :
    processTag dl ex st tag =
      (⟨st.dirs ++ [(tag, c)], (st.temps ++ [tag]).filter (fun t => !(t == tag)),
        st.downloaded ++ [tag]⟩, none) := by
  simp [processTag, h1, h2, h3]

/-- The loop invariant of `ensure_releases`: directory entries are never
overwritten (their lookups are preserved), and the tags appended to
`downloaded` are pairwise distinct and were all absent from the directory set
at entry to the loop. -/
theorem ensureReleases_invariant (dl : String → Except String Nat)
    (ex : String → Nat → Except String Nat) :
    ∀ (tags : List String) (st : RunSt),
      (∀ k v, List.lookup k st.dirs = some v →
        List.lookup k ((ensureReleases dl ex tags st).1).dirs = some v) ∧
      ∃ d, ((ensureReleases dl ex tags st).1).downloaded = st.downloaded ++ d ∧
        d.Nodup ∧ (∀ u ∈ d, List.lookup u st.dirs = none) := by
  intro tags
  induction tags with
  | nil =>
      intro st
      rw [ensureReleases_nil]
      exact ⟨fun k v h => h, [], by simp, List.nodup_nil, by simp⟩
  | cons tag rest ih =>
      intro st
      rw [ensureReleases_cons]
      by_cases hlk : (List.lookup tag st.dirs).isSome = true
      · rw [processTag_skip dl ex st tag hlk]
        exact ih st
      · have hlk2 : (List.lookup tag st.dirs).isSome = false := by
          cases hb : (List.lookup tag st.dirs).isSome with
          | false => rfl
          | true => exact absurd hb hlk
        cases hdl : dl tag with
        | error e =>
            rw [processTag_dl_error dl ex st tag e hlk2 hdl]
            exact ⟨fun k v h => h, [], by simp, List.nodup_nil, by simp⟩
        | ok tb =>
            cases hex : ex tag tb with
            | error e =>
                rw [processTag_ex_error dl ex st tag tb e hlk2 hdl hex]
                exact ⟨fun k v h => h, [], by simp, List.nodup_nil, by simp⟩
            | ok c =>
                rw [processTag_extract_ok dl ex st tag tb c hlk2 hdl hex]
                have hnone : List.lookup tag st.dirs = none :=
                  Option.not_isSome_iff_eq_none.mp (by simp [hlk2])
                obtain ⟨P1, d2, hd2, hnd2, habs2⟩ :=
                  ih ⟨st.dirs ++ [(tag, c)], (st.temps ++ [tag]).filter (fun t => !(t == tag)),
                    st.downloaded ++ [tag]⟩
                have hfound : List.lookup tag (st.dirs ++ [(tag, c)]) = some c := by
                  rw [lookup_append_of_none tag st.dirs [(tag, c)] hnone]
                  simp [List.lookup]
                refine ⟨?_, tag :: d2, ?_, ?_, ?_⟩
                · exact fun k v h => P1 k v (lookup_append_left k st.dirs [(tag, c)] v h)
                · exact hd2.trans (by simp)
                · refine List.Nodup.cons ?_ hnd2
                  intro hmem
                  have hcontr := habs2 tag hmem
                  rw [hfound] at hcontr
                  cases hcontr
                · intro u hu
                  rcases List.mem_cons.mp hu with rfl | hu2
                  · exact hnone
                  · have h2 := habs2 u hu2
                    cases h3 : List.lookup u st.dirs with
                    | none => rfl
                    | some v =>
                        rw [lookup_append_left u st.dirs [(tag, c)] v h3] at h2
                        cases h2

/-- C4: a tag whose directory already exists when the run starts is never
downloaded or extracted (it is absent from `downloaded`), its directory entry
is left unchanged, and each tag is appended to `downloaded` at most once per
run — release directories are never overwritten. -/
theorem c4_existing_dirs_skipped (dl : String → Except String Nat)
    (ex : String → Nat → Except String Nat) (tags : List String)
    (dirs : List (String × Nat)) (temps : List String) (tag : String) (c : Nat)
    (h : List.lookup tag dirs = some c) :
    List.lookup tag ((ensureReleases dl ex tags ⟨dirs, temps, []⟩).1).dirs = some c ∧
    tag ∉ ((ensureReleases dl ex tags ⟨dirs, temps, []⟩).1).downloaded ∧
    ((ensureReleases dl ex tags ⟨dirs, temps, []⟩).1).downloaded.Nodup := by
  obtain ⟨P1, d, hd, hnd, habs⟩ := ensureReleases_invariant dl ex tags ⟨dirs, temps, []⟩
  refine ⟨P1 tag c h, ?_, ?_⟩
  · rw [hd]
    simp only [List.nil_append]
    intro hmem
    rw [habs tag hmem] at h
    cases h
  · rw [hd]
    simpa using hnd

/-- C4 witness: with tags `["v1", "v2", "v1"]` and `v1` already on disk, `v1`
keeps its directory and is never downloaded, and no tag is downloaded twice. -/
theorem c4_existing_dirs_skipped_witness :
    List.lookup "v1" ((ensureReleases (fun _ => .ok 0) (fun _ _ => .ok 5)
        ["v1", "v2", "v1"] ⟨[("v1", 7)], [], []⟩).1).dirs = some 7 ∧
    "v1" ∉ ((ensureReleases (fun _ => .ok 0) (fun _ _ => .ok 5)
        ["v1", "v2", "v1"] ⟨[("v1", 7)], [], []⟩).1).downloaded ∧
    ((ensureReleases (fun _ => .ok 0) (fun _ _ => .ok 5)
        ["v1", "v2", "v1"] ⟨[("v1", 7)], [], []⟩).1).downloaded.Nodup :=
  c4_existing_dirs_skipped (fun _ => .ok 0) (fun _ _ => .ok 5) ["v1", "v2", "v1"]
    [("v1", 7)] [] "v1" 7 (by rfl)

/-- C10: for a tag that is not already present and whose download succeeds,
the downloaded temporary file is deleted before the tag's processing
completes — the live temporary files are exactly as before — both when
extraction succeeds and when it raises, and in the latter case the error
still propagates. -/
theorem c10_tarball_deleted (dl : String → Except String Nat)
    (ex : String → Nat → Except String Nat) (st : RunSt) (tag : String) (tb : Nat)
    (h1 : List.lookup tag st.dirs = none)
    (h2 : dl tag = .ok tb)
    (h3 : tag ∉ st.temps) :
    (processTag dl ex st tag).1.temps = st.temps ∧
    (∀ e, ex tag tb = .error e → (processTag dl ex st tag).2 = some e) ∧
    (∀ c, ex tag tb = .ok c → (processTag dl ex st tag).2 = none) := by
  have h1b : (List.lookup tag st.dirs).isSome = false := by rw [h1]; rfl
  have htemps : (st.temps ++ [tag]).filter (fun t => !(t == tag)) = st.temps := by
    rw [List.filter_append]
    have hself : ([tag].filter (fun t => !(t == tag))) = [] := by simp
    rw [hself, List.append_nil]
    rw [List.filter_eq_self]
    intro a ha
    simp only [Bool.not_eq_true']
    rw [beq_eq_false_iff_ne]
    intro hc
    exact h3 (hc ▸ ha)
  cases hex : ex tag tb with
  | error e =>
      rw [processTag_ex_error dl ex st tag tb e h1b h2 hex]
      refine ⟨htemps, ?_, ?_⟩
      · intro e2 he2
        cases he2
        rfl
      · intro c hc
        cases hc
  | ok c =>
      rw [processTag_extract_ok dl ex st tag tb c h1b h2 hex]
      refine ⟨htemps, ?_, ?_⟩
      · intro e2 he2
        cases he2
      · intro c2 hc2
        rfl

/-- C10 witness: a failing extraction for a fresh tag leaves no temporary file
and propagates its error; the conclusion is evaluated at a concrete state. -/
theorem c10_tarball_deleted_witness :
    (processTag (fun _ => .ok 3) (fun _ _ => .error "boom")
        ⟨[("v0", 1)], [], []⟩ "v1").1.temps = ([] : List String) ∧
    (∀ e, (fun (_ : String) (_ : Nat) => (.error "boom" : Except String Nat)) "v1" 3 =
        .error e →
      (processTag (fun _ => .ok 3) (fun _ _ => .error "boom")
        ⟨[("v0", 1)], [], []⟩ "v1").2 = some e) ∧
    (∀ c, (fun (_ : String) (_ : Nat) => (.error "boom" : Except String Nat)) "v1" 3 =
        .ok c →
      (processTag (fun _ => .ok 3) (fun _ _ => .error "boom")
        ⟨[("v0", 1)], [], []⟩ "v1").2 = none) :=
  c10_tarball_deleted (fun _ => .ok 3) (fun _ _ => .error "boom")
    ⟨[("v0", 1)], [], []⟩ "v1" 3 (by rfl) (by rfl) (by simp)

end Backscape
